import Mathlib

/-!
Verification of the task-scheduling and memory-region core of the
`2024a-rcore-ghost-him` kernel, as a shallow embedding in Lean 4.

The embedding follows the Rust sources:
  * `os/src/task/manager.rs`   — stride scheduler (`TaskManager::add` / `fetch`)
  * `os/src/task/processor.rs` — processor run loop, first-switch recording,
    user region allocation (`user_allocate_new_space`)
  * `os/src/task/mod.rs`       — legacy task manager (`allocate_new_space`,
    `record_first_switch`)
  * `os/src/syscall/process.rs` — `sys_set_priority`, `sys_waitpid`, `sys_fork`

Machine integers: `isize`/`usize` fields are modelled as `Int`/`Nat`; where
64-bit two's-complement overflow can occur (release-profile Rust arithmetic
wraps) the wrap is made explicit through `wrap64`.
-/

/-- Largest value of the Rust type `isize` (64-bit target): `2^63 - 1`. -/
def isizeMax : Int := 2 ^ 63 - 1

/-- Two's-complement wrap of an integer into the 64-bit signed range,
the semantics of release-profile `isize` arithmetic and of `as isize` casts. -/
def wrap64 (x : Int) : Int := (x + 2 ^ 63) % 2 ^ 64 - 2 ^ 63

/-- Wrapping cast of a `usize` value to `isize` (Rust `as isize`). -/
def isizeOfNat (n : Nat) : Int := wrap64 (Int.ofNat n)

/-- Wrapping cast of an `isize` value to `usize` (Rust `as usize`). -/
def usizeOfInt (x : Int) : Nat := (x % 2 ^ 64).toNat

/-- The scheduling-relevant state of one task control block
(`TaskControlBlockInner` fields used by `manager.rs` and
`syscall/process.rs`): identity, stride-scheduling fields, and the saved
return-value register `x[10]` of the trap context. -/
structure TCB where
  pid : Nat
  stride : Int
  pass : Int
  priority : Int
  a0 : Int
deriving DecidableEq

/-- `TaskManager::add` (`manager.rs` lines 23-31): `inner.stride += inner.pass`
(64-bit `isize` addition), then push the task onto the back of `ready_queue`.
Returns the mutated task together with the new queue. -/
def TaskManager.add (task : TCB) (ready_queue : List TCB) : TCB × List TCB :=
  let task' := { task with stride := wrap64 (task.stride + task.pass) }
  (task', ready_queue ++ [task'])

/-- The scan loop of `TaskManager::fetch` (`manager.rs` lines 35-45):
walk the queue with an index, keeping the running minimum stride `mv`
(initially `isize::MAX`) and the index `mi` of the first entry that attained
it (initially `None`); an entry updates the pair only when its stride is
strictly below the running minimum. -/
def scanGo : List TCB → Nat → Option Nat → Int → Option Nat × Int
  | [], _, mi, mv => (mi, mv)
  | t :: rest, idx, mi, mv =>
    if t.stride < mv then scanGo rest (idx + 1) (some idx) t.stride
    else scanGo rest (idx + 1) mi mv

/-- `TaskManager::fetch` (`manager.rs` lines 33-53): scan for the index of the
minimal-stride entry; if one was found, remove it (`Vec::remove`, i.e.
`eraseIdx`) and return it, otherwise return `None`. -/
def TaskManager.fetch (ready_queue : List TCB) : Option (TCB × List TCB) :=
  match (scanGo ready_queue 0 none isizeMax).1 with
  | some idx =>
    match ready_queue[idx]? with
    | some target => some (target, ready_queue.eraseIdx idx)
    | none => none
  | none => none

/-- `sys_set_priority` (`syscall/process.rs` lines 237-249): a requested
priority below 2 is rejected with `-1` and no mutation; otherwise
`inner.priority = prio`, `inner.pass = BIG_STRIDE / inner.priority`
(truncating `isize` division) and the requested priority is returned.
`BIG_STRIDE` lives in `config.rs` (not under `src/`), so it is kept as an
explicit parameter. -/
def sys_set_priority (BIG_STRIDE : Int) (prio : Int) (t : TCB) : Int × TCB :=
  if prio < 2 then (-1, t)
  else (prio, { t with priority := prio, pass := BIG_STRIDE.tdiv prio })

/-- The child-facing state `sys_waitpid` reads from a child task control
block: its pid, whether `is_zombie()` holds (status `Exited`/`Zombie`), its
recorded exit code, and the `Arc` strong reference count observed by the
`assert_eq!`. -/
structure Child where
  pid : Nat
  zombie : Bool
  exit_code : Int
  strong_count : Nat
deriving DecidableEq

/-- The child filter of `sys_waitpid`: `pid == -1 || pid as usize == p.getpid()`. -/
def pidMatch (pid : Int) (c : Child) : Bool :=
  pid == -1 || usizeOfInt pid == c.pid

/-- The search `children.iter().enumerate().find(|(_, p)| p.is_zombie() &&
(pid == -1 || pid as usize == p.getpid()))` of `sys_waitpid`: first index
(with its element) whose child is a zombie and matches the filter. -/
def findZombieIdx (pid : Int) : List Child → Option (Nat × Child)
  | [] => none
  | c :: rest =>
    if c.zombie && pidMatch pid c then some (0, c)
    else (findZombieIdx pid rest).map (fun p => (p.1 + 1, p.2))

/-- `sys_waitpid` (`syscall/process.rs` lines 99-133): `-1` when no child
matches the filter; otherwise the first zombie match is removed from
`children` (`Vec::remove`), the `assert_eq!(Arc::strong_count(&child), 1)`
fires (modelled as result `none`) unless its strong count is exactly 1, its
exit code is written through the user pointer (modelled as the third
component) and its pid is returned; `-2` when a match exists but none is a
zombie. The result triple is (return value, remaining children, written
exit code). -/
def sys_waitpid (pid : Int) (children : List Child) :
    Option (Int × List Child × Option Int) :=
  if !(children.any (pidMatch pid)) then some (-1, children, none)
  else
    match findZombieIdx pid children with
    | some (idx, child) =>
      if child.strong_count == 1 then
        some (isizeOfNat child.pid, children.eraseIdx idx, some child.exit_code)
      else none
    | none => some (-2, children, none)

/-- The kernel state `sys_fork` touches: the current task, the scheduler
ready queue, and the pid-allocator counter. -/
structure KState where
  cur : TCB
  queue : List TCB
  next_pid : Nat
deriving DecidableEq

/-- Modelled from the spec: `TaskControlBlock::fork` is not under `src/`
(only its caller `sys_fork` is). Per spec §4.4 it duplicates the calling
task's state (address space copied, accounting reset) and assigns a new
unused identity; every register of the saved trap context, including the
return-value register, starts as a copy of the parent's. -/
def TaskControlBlock.fork (parent : TCB) (new_pid : Nat) : TCB :=
  { parent with pid := new_pid }

/-- `sys_fork` (`syscall/process.rs` lines 68-81): clone the current task,
read the child's pid, set the child's saved return-value register
`trap_cx.x[10]` to 0, enqueue the child through `add_task` (which is
`TaskManager::add`), and return `new_pid as isize` (a wrapping cast) to the
parent. -/
def sys_fork (s : KState) : Int × KState :=
  let new_task := TaskControlBlock.fork s.cur s.next_pid
  let new_pid := new_task.pid
  let new_task2 := { new_task with a0 := 0 }
  let queue' := (TaskManager.add new_task2 s.queue).2
  (isizeOfNat new_pid, { s with queue := queue', next_pid := s.next_pid + 1 })

/-- Modelled from the spec: the page size used by `VirtAddr::aligned`
(`mm` module, not under `src/`); the spec's examples (§8) use `0x1000`-sized
pages. -/
def PAGE_SIZE : Nat := 4096

/-- A RISC-V map permission set (`mm::MapPermission` bits R, W, X, U). -/
structure Perm where
  r : Bool
  w : Bool
  x : Bool
  u : Bool
deriving DecidableEq

/-- A mapped virtual region `[rstart, rend)` with its installed page-table
permission bits. -/
structure Region where
  rstart : Nat
  rend : Nat
  perm : Perm
deriving DecidableEq

/-- The region set of one task's address space. -/
structure MemorySet where
  regions : List Region
deriving DecidableEq

/-- Modelled from the spec: `mm::MemorySet::allocate_new_space` is not under
`src/`. Per spec §4.5 it rounds `len` up to a whole number of pages, rejects
a range overlapping an existing region leaving the address space unmodified,
and on success inserts the region record, establishing page-table entries
with exactly the permission set it is handed, and returns success (0). -/
def MemorySet.allocate_new_space (ms : MemorySet) (start len : Nat)
    (perm : Perm) : Int × MemorySet :=
  let rend := start + PAGE_SIZE * ((len + PAGE_SIZE - 1) / PAGE_SIZE)
  if ms.regions.any (fun rg => rg.rstart < rend && start < rg.rend) then
    (-1, ms)
  else
    (0, ⟨ms.regions ++ [⟨start, rend, perm⟩]⟩)

/-- The `usize` constant `!0x7`: all bits except the low three. Bitwise-and
against it behaves identically for any `Nat` argument because only bits
3..63 are set. -/
def usizeNot7 : Nat := 2 ^ 64 - 8

/-- The permission decoding of `user_allocate_new_space`
(`processor.rs` lines 154-158): `set(R, port & 0x1 != 0)`,
`set(W, port & 0x2 != 0)`, `set(X, port & 0x4 != 0)`, `set(U, true)`. -/
def permOfPort (port : Nat) : Perm :=
  ⟨port &&& 0x1 != 0, port &&& 0x2 != 0, port &&& 0x4 != 0, true⟩

/-- `user_allocate_new_space` (`processor.rs` lines 143-164): reject with
`-1` when `port` has a bit outside `0x7`, when `port & 0x7 == 0`, or when
`start` is not page-aligned; otherwise decode the permissions (adding U) and
call `memory_set.allocate_new_space` on the current task's address space. -/
def user_allocate_new_space (ms : MemorySet) (start len port : Nat) :
    Int × MemorySet :=
  if port &&& usizeNot7 ≠ 0 then (-1, ms)
  else if port &&& 0x7 = 0 then (-1, ms)
  else if ¬ start % PAGE_SIZE = 0 then (-1, ms)
  else ms.allocate_new_space start len (permOfPort port)

/-- The permission decoding of the legacy `TaskManager::allocate_new_space`
(`task/mod.rs` lines 200-209), verbatim: starting from
`MapPermission::empty()`, R is ored in when `port & 1 == 1`, W when
`port & 2 == 1`, X when `port & 4 == 1`; no U bit is ever set. -/
def permOfPortModRs (port : Nat) : Perm :=
  let p0 : Perm := ⟨false, false, false, false⟩
  let p1 := if port &&& 1 = 1 then { p0 with r := true } else p0
  let p2 := if port &&& 2 = 1 then { p1 with w := true } else p1
  if port &&& 4 = 1 then { p2 with x := true } else p2

/-- The legacy `TaskManager::allocate_new_space` (`task/mod.rs` lines
189-215): the same three rejection checks as `user_allocate_new_space`,
then its own (distinct) permission decoding, then the call into
`memory_set.allocate_new_space`. -/
def allocate_new_space_modRs (ms : MemorySet) (start len port : Nat) :
    Int × MemorySet :=
  if port &&& usizeNot7 ≠ 0 then (-1, ms)
  else if port &&& 0x7 = 0 then (-1, ms)
  else if ¬ start % PAGE_SIZE = 0 then (-1, ms)
  else ms.allocate_new_space start len (permOfPortModRs port)

/-- `record_first_switch` (`processor.rs` lines 134-140): the accounting
field `task_info.time` starts at 0 (`TaskInfo::new`); a recording attempt
writes the current time only when the stored field is still 0. Arguments:
current time, stored field; result: new stored field. -/
def record_first_switch (now time : Nat) : Nat :=
  if time = 0 then now else time

/-- `record_first_switch` (`task/mod.rs` lines 294-299): the field
`first_reload_time : Option<usize>` is written only while it is `None`. -/
def record_first_switch_mod (now : Nat) (t : Option Nat) : Option Nat :=
  if t.isNone then some now else t

/-- Outcome of iterating the `run_tasks` loop (`processor.rs` lines 59-82):
either the loop is still at its head with the given ready queue, or an
iteration fetched a task and dispatched into it via `__switch`. `fatal` is
never produced by `run_tasks` (its empty-queue branch only emits
`warn!("no tasks available in run_tasks")` and loops). -/
inductive LoopStatus where
  | running (q : List TCB)
  | dispatched (t : TCB) (q : List TCB)
  | fatal
deriving DecidableEq

/-- `n` iterations of the `run_tasks` loop body: a successful fetch
dispatches the task; an empty fetch reports the condition and retries. -/
def run_tasks_iter : Nat → List TCB → LoopStatus
  | 0, q => LoopStatus.running q
  | Nat.succ n, q =>
    match TaskManager.fetch q with
    | some (t, q') => LoopStatus.dispatched t q'
    | none => run_tasks_iter n q

/-- A ready-queue entry whose stride already equals `isize::MAX`. -/
def tSentinel : TCB := ⟨0, isizeMax, 1, 16, 0⟩

/-- Sample ready queue: strides 3, 1, 1 — a tie on the minimum between the
second and third entries. -/
def qSample : List TCB := [⟨1, 3, 1, 16, 0⟩, ⟨2, 1, 1, 16, 0⟩, ⟨3, 1, 1, 16, 0⟩]

/-- The entry `fetch` picks from `qSample`: the earlier of the two
minimal-stride entries. -/
def tSample : TCB := ⟨2, 1, 1, 16, 0⟩

/-- Sample task for the `add` witness. -/
def tAddSample : TCB := ⟨0, 10, 3, 16, 0⟩

/-- Sample task whose stride is at the top of the `isize` range. -/
def tOverflow : TCB := ⟨7, isizeMax, 1, 16, 0⟩

/-- Sample task for the priority-syscall witnesses. -/
def tPrio : TCB := ⟨0, 100, 7, 3, 0⟩

/-- Sample exited child with strong count 1. -/
def chZombie : Child := ⟨5, true, 42, 1⟩

/-- Sample still-running child. -/
def chLive : Child := ⟨6, false, 0, 2⟩

/- ------------------------------------------------------------------ -/
/- Helper lemmas                                                       -/
/- ------------------------------------------------------------------ -/

/-- Integers already inside the signed 64-bit range are fixed by `wrap64`. -/
theorem wrap64_eq_self (x : Int) (h1 : -(2 ^ 63) ≤ x) (h2 : x < 2 ^ 63) :
    wrap64 x = x := by
  unfold wrap64
  have ha : (0 : Int) ≤ x + 2 ^ 63 := by linarith
  have hb : x + 2 ^ 63 < 2 ^ 64 := by
    have : (2 : Int) ^ 64 = 2 ^ 63 + 2 ^ 63 := by norm_num
    linarith
  rw [Int.emod_eq_of_lt ha hb]
  ring

/-- If no element of the remaining queue beats the running minimum, the scan
returns its accumulator unchanged. -/
theorem scanGo_no_lt (l : List TCB) (idx : Nat) (mi : Option Nat) (mv : Int)
    (h : ∀ t ∈ l, mv ≤ t.stride) : scanGo l idx mi mv = (mi, mv) := by
  induction l generalizing idx with
  | nil => rfl
  | cons t rest ih =>
    have ht : ¬ t.stride < mv := not_lt.mpr (h t (List.mem_cons_self t rest))
    simp only [scanGo, if_neg ht]
    exact ih (idx + 1) fun u hu => h u (List.mem_cons_of_mem t hu)

/-- If some element of the remaining queue beats the running minimum, the
scan settles on the earliest position attaining the least stride: every
entry is at least as large, and every strictly earlier entry is strictly
larger. -/
theorem scanGo_lt (l : List TCB) (idx : Nat) (mi : Option Nat) (mv : Int)
    (h : ∃ t ∈ l, t.stride < mv) :
    ∃ j, ∃ hj : j < l.length,
      (scanGo l idx mi mv).1 = some (idx + j) ∧
      (l.get ⟨j, hj⟩).stride < mv ∧
      (∀ k, ∀ hk : k < l.length, (l.get ⟨j, hj⟩).stride ≤ (l.get ⟨k, hk⟩).stride) ∧
      (∀ k, ∀ hk : k < l.length, k < j →
        (l.get ⟨j, hj⟩).stride < (l.get ⟨k, hk⟩).stride) := by
  induction l generalizing idx mi mv with
  | nil => simp at h
  | cons t rest ih =>
    by_cases hlt : t.stride < mv
    · simp only [scanGo, if_pos hlt]
      by_cases hrest : ∃ u ∈ rest, u.stride < t.stride
      · obtain ⟨j', hj', h1, h2, h3, h4⟩ := ih (idx + 1) (some idx) t.stride hrest
        refine ⟨j' + 1, Nat.succ_lt_succ hj', ?_, ?_, ?_, ?_⟩
        · rw [h1]; ring_nf
        · exact lt_trans h2 hlt
        · intro k hk
          match k with
          | 0 => exact le_of_lt h2
          | k' + 1 => exact h3 k' (Nat.lt_of_succ_lt_succ hk)
        · intro k hk hkj
          match k with
          | 0 => exact h2
          | k' + 1 => exact h4 k' (Nat.lt_of_succ_lt_succ hk) (Nat.lt_of_succ_lt_succ hkj)
      · push_neg at hrest
        rw [scanGo_no_lt rest (idx + 1) (some idx) t.stride hrest]
        refine ⟨0, Nat.succ_pos _, by simp, hlt, ?_, ?_⟩
        · intro k hk
          match k with
          | 0 => exact le_refl _
          | k' + 1 =>
            exact hrest _ (rest.get_mem _ _)
        · intro k hk hkj; omega
    · simp only [scanGo, if_neg hlt]
      have hrest : ∃ u ∈ rest, u.stride < mv := by
        obtain ⟨u, hu, hult⟩ := h
        rcases List.mem_cons.mp hu with rfl | hu'
        · exact absurd hult hlt
        · exact ⟨u, hu', hult⟩
      obtain ⟨j', hj', h1, h2, h3, h4⟩ := ih (idx + 1) mi mv hrest
      have hmv : mv ≤ t.stride := not_lt.mp hlt
      refine ⟨j' + 1, Nat.succ_lt_succ hj', ?_, h2, ?_, ?_⟩
      · rw [h1]; ring_nf
      · intro k hk
        match k with
        | 0 => exact le_of_lt (lt_of_lt_of_le h2 hmv)
        | k' + 1 => exact h3 k' (Nat.lt_of_succ_lt_succ hk)
      · intro k hk hkj
        match k with
        | 0 => exact lt_of_lt_of_le h2 hmv
        | k' + 1 => exact h4 k' (Nat.lt_of_succ_lt_succ hk) (Nat.lt_of_succ_lt_succ hkj)

/- ------------------------------------------------------------------ -/
/- Claim theorems                                                      -/
/- ------------------------------------------------------------------ -/

/-- C1 (counterexample): the claim "fetch returns empty if and only if the
queue has no entries" is false on the code: because the scan's running
minimum starts at the sentinel `isize::MAX` and only a strictly smaller
stride is picked up, a non-empty queue whose only entry has stride
`isize::MAX` makes `fetch` return `None`. -/
theorem fetch_none_nonempty_cex :
    TaskManager.fetch [tSentinel] = none ∧ ([tSentinel] : List TCB) ≠ [] := by
  constructor
  · rfl
  · simp

/-- C1 (amended): `fetch` returns `None` iff no queue entry has stride
strictly below `isize::MAX` (in particular on the empty queue); whenever it
returns a task, that task is an entry of the queue with stride below
`isize::MAX`, the remaining queue is the original with that entry removed,
no entry of the queue has a strictly smaller stride, and every strictly
earlier entry has a strictly larger stride (ties broken by insertion
order) — so `fetch` never returns a task whose stride is strictly greater
than that of some other task still in the queue. -/
theorem fetch_min_stride_spec (q : List TCB) :
    (TaskManager.fetch q = none ↔ ∀ t ∈ q, isizeMax ≤ t.stride) ∧
    (∀ t q', TaskManager.fetch q = some (t, q') →
      ∃ j, ∃ hj : j < q.length,
        t = q.get ⟨j, hj⟩ ∧ q' = q.eraseIdx j ∧ t.stride < isizeMax ∧
        (∀ u ∈ q, t.stride ≤ u.stride) ∧
        (∀ k, ∀ hk : k < q.length, k < j → t.stride < (q.get ⟨k, hk⟩).stride)) := by
  by_cases hex : ∃ u ∈ q, u.stride < isizeMax
  · obtain ⟨j, hj, h1, h2, h3, h4⟩ := scanGo_lt q 0 none isizeMax hex
    have hfetch : TaskManager.fetch q = some (q.get ⟨j, hj⟩, q.eraseIdx j) := by
      unfold TaskManager.fetch
      rw [h1]
      simp only [Nat.zero_add]
      rw [List.getElem?_eq_getElem hj]
      rfl
    constructor
    · constructor
      · intro hnone; rw [hfetch] at hnone; exact absurd hnone (by simp)
      · intro hall
        obtain ⟨u, hu, hult⟩ := hex
        exact absurd (hall u hu) (not_le.mpr hult)
    · intro t q' hsome
      rw [hfetch, Option.some.injEq, Prod.mk.injEq] at hsome
      obtain ⟨h5, h6⟩ := hsome
      subst h5; subst h6
      refine ⟨j, hj, rfl, rfl, h2, ?_, h4⟩
      intro u hu
      obtain ⟨n, hn⟩ := List.mem_iff_get.mp hu
      have := h3 n.1 n.2
      rw [hn] at this
      exact this
  · push_neg at hex
    have hnone : TaskManager.fetch q = none := by
      unfold TaskManager.fetch
      rw [scanGo_no_lt q 0 none isizeMax hex]
    constructor
    · exact ⟨fun _ => hex, fun _ => hnone⟩
    · intro t q' hsome; rw [hnone] at hsome; exact absurd hsome (by simp)

/-- C1 (witness): on the queue with strides 3, 1, 1 `fetch` returns the
second entry — its stride is below `isize::MAX` and no queued entry,
including the later tied one, has a smaller stride. -/
theorem fetch_min_stride_spec_witness :
    tSample.stride < isizeMax ∧ tSample.stride ≤ (⟨1, 3, 1, 16, 0⟩ : TCB).stride := by
  obtain ⟨j, hj, _, _, h1, h2, _⟩ :=
    (fetch_min_stride_spec qSample).2 tSample [⟨1, 3, 1, 16, 0⟩, ⟨3, 1, 1, 16, 0⟩]
      (by decide)
  exact ⟨h1, h2 ⟨1, 3, 1, 16, 0⟩ (by decide)⟩

/-- C2 (counterexample): the claim "add increases the task's stride by
exactly its current pass value" is false on the code: `inner.stride +=
inner.pass` is 64-bit `isize` arithmetic, so a task whose stride is
`isize::MAX` and whose pass is 1 wraps to `isize::MIN` instead of
increasing by 1. -/
theorem add_exact_pass_cex :
    (TaskManager.add tOverflow []).1.stride = -(2 ^ 63) ∧
    (TaskManager.add tOverflow []).1.stride ≠ tOverflow.stride + tOverflow.pass := by
  constructor
  · decide
  · decide

/-- C2 (amended): `add` updates the stride to the two's-complement 64-bit
wrap of `stride + pass` and then appends the task to the back of the ready
queue; whenever the sum stays inside the `isize` range the increase is
exactly `pass`, the task's `pass` itself is unchanged by `add`, and a
second `add` of the same task (no intervening priority change) whose sum
also stays in range increases the stride by exactly the same delta `pass`
again. -/
theorem add_exact_pass_spec (t : TCB) (q q' : List TCB)
    (h1 : -(2 ^ 63) ≤ t.stride + t.pass) (h2 : t.stride + t.pass < 2 ^ 63)
    (h3 : -(2 ^ 63) ≤ t.stride + t.pass + t.pass)
    (h4 : t.stride + t.pass + t.pass < 2 ^ 63) :
    (TaskManager.add t q).1.stride = t.stride + t.pass ∧
    (TaskManager.add t q).1.pass = t.pass ∧
    (TaskManager.add t q).2 = q ++ [(TaskManager.add t q).1] ∧
    (TaskManager.add (TaskManager.add t q).1 q').1.stride
      = (TaskManager.add t q).1.stride + t.pass := by
  have e1 : (TaskManager.add t q).1.stride = t.stride + t.pass := by
    simp only [TaskManager.add]
    exact wrap64_eq_self _ h1 h2
  refine ⟨e1, rfl, rfl, ?_⟩
  simp only [TaskManager.add] at e1 ⊢
  rw [e1]
  exact wrap64_eq_self _ h3 h4

/-- C2 (witness): adding the task with stride 10 and pass 3 twice yields
strides 13 then 16 — an increase of exactly `pass` each time. -/
theorem add_exact_pass_spec_witness :
    (TaskManager.add tAddSample []).1.stride = tAddSample.stride + tAddSample.pass ∧
    (TaskManager.add tAddSample []).1.pass = tAddSample.pass ∧
    (TaskManager.add tAddSample []).2 = [] ++ [(TaskManager.add tAddSample []).1] ∧
    (TaskManager.add (TaskManager.add tAddSample []).1 []).1.stride
      = (TaskManager.add tAddSample []).1.stride + tAddSample.pass :=
  add_exact_pass_spec tAddSample [] [] (by decide) (by decide) (by decide) (by decide)

/-- C3: a requested priority below 2 is rejected — the syscall returns the
negative value `-1` and the task's priority, pass and stride fields are all
unchanged; a requested priority of at least 2 sets `pass` to exactly
`BIG_STRIDE / p` (truncating integer division) and leaves `stride`
unchanged. -/
theorem sys_set_priority_spec (B prio : Int) (t : TCB) :
    (prio < 2 → (sys_set_priority B prio t).1 = -1 ∧
      (sys_set_priority B prio t).1 < 0 ∧
      (sys_set_priority B prio t).2 = t) ∧
    (2 ≤ prio → (sys_set_priority B prio t).2.pass = B.tdiv prio ∧
      (sys_set_priority B prio t).2.stride = t.stride ∧
      (sys_set_priority B prio t).2.priority = prio) := by
  constructor
  · intro h
    unfold sys_set_priority
    rw [if_pos h]
    exact ⟨rfl, by norm_num, rfl⟩
  · intro h
    have h' : ¬ prio < 2 := not_lt.mpr h
    unfold sys_set_priority
    rw [if_neg h']
    exact ⟨rfl, rfl, rfl⟩

/-- C3 (witness): with `BIG_STRIDE = 65536`, priority 1 is rejected with
`-1` leaving the task untouched, and priority 4 installs
`pass = 65536 / 4` while keeping the stride. -/
theorem sys_set_priority_spec_witness :
    ((sys_set_priority 65536 1 tPrio).1 = -1 ∧
      (sys_set_priority 65536 1 tPrio).1 < 0 ∧
      (sys_set_priority 65536 1 tPrio).2 = tPrio) ∧
    ((sys_set_priority 65536 4 tPrio).2.pass = Int.tdiv 65536 4 ∧
      (sys_set_priority 65536 4 tPrio).2.stride = tPrio.stride ∧
      (sys_set_priority 65536 4 tPrio).2.priority = 4) :=
  ⟨(sys_set_priority_spec 65536 1 tPrio).1 (by decide),
   (sys_set_priority_spec 65536 4 tPrio).2 (by decide)⟩

/-- C10: on success (requested priority at least 2) `sys_set_priority`
returns the requested priority value itself, not zero. -/
theorem sys_set_priority_ret (B prio : Int) (t : TCB) (h : 2 ≤ prio) :
    (sys_set_priority B prio t).1 = prio := by
  simp only [sys_set_priority, if_neg (not_lt.mpr h)]

/-- C10 (witness): requesting priority 5 returns 5. -/
theorem sys_set_priority_ret_witness :
    (sys_set_priority 65536 5 tPrio).1 = 5 :=
  sys_set_priority_ret 65536 5 tPrio (by decide)

/-- A `usize` value below `2 ^ 63` is unchanged by the cast to `isize`. -/
theorem isizeOfNat_eq (n : Nat) (h : n < 2 ^ 63) : isizeOfNat n = Int.ofNat n := by
  unfold isizeOfNat
  refine wrap64_eq_self _ ?_ ?_
  · have : (0 : Int) ≤ Int.ofNat n := Int.ofNat_nonneg n
    have h63 : (0 : Int) < 2 ^ 63 := by norm_num
    linarith
  · have h' : Int.ofNat n < Int.ofNat (2 ^ 63) := Int.ofNat_lt.mpr h
    simpa using h'

/-- When no child is both a zombie and a filter match, the `find` of
`sys_waitpid` comes back empty. -/
theorem findZombieIdx_eq_none (pid : Int) (l : List Child)
    (h : ∀ c ∈ l, ¬(c.zombie = true ∧ pidMatch pid c = true)) :
    findZombieIdx pid l = none := by
  induction l with
  | nil => rfl
  | cons c rest ih =>
    have hc : ¬ (c.zombie && pidMatch pid c) = true := by
      rw [Bool.and_eq_true]
      exact h c (List.mem_cons_self c rest)
    simp only [findZombieIdx, if_neg hc]
    rw [ih fun u hu => h u (List.mem_cons_of_mem c hu)]
    rfl

/-- The `find` of `sys_waitpid` returns the first index whose child is a
zombie matching the filter: the returned pair is consistent, and every
strictly earlier child fails the zombie-and-match test. -/
theorem findZombieIdx_some (pid : Int) (l : List Child) (i : Nat) (c : Child)
    (h : findZombieIdx pid l = some (i, c)) :
    ∃ hi : i < l.length,
      l.get ⟨i, hi⟩ = c ∧ c.zombie = true ∧ pidMatch pid c = true ∧
      ∀ k, ∀ hk : k < l.length, k < i →
        ¬((l.get ⟨k, hk⟩).zombie = true ∧ pidMatch pid (l.get ⟨k, hk⟩) = true) := by
  induction l generalizing i with
  | nil => simp [findZombieIdx] at h
  | cons c0 rest ih =>
    simp only [findZombieIdx] at h
    by_cases hc : (c0.zombie && pidMatch pid c0) = true
    · rw [if_pos hc] at h
      rw [Option.some.injEq, Prod.mk.injEq] at h
      obtain ⟨h1, h2⟩ := h
      subst h1; subst h2
      rw [Bool.and_eq_true] at hc
      exact ⟨Nat.succ_pos _, rfl, hc.1, hc.2, fun k hk hki => absurd hki (Nat.not_lt_zero k)⟩
    · rw [if_neg hc] at h
      obtain ⟨⟨i', c'⟩, hrec, heq⟩ := Option.map_eq_some'.mp h
      simp only [Prod.mk.injEq] at heq
      obtain ⟨h1, h2⟩ := heq
      subst h1; subst h2
      obtain ⟨hi', hget, hz, hm, hearlier⟩ := ih i' hrec
      refine ⟨Nat.succ_lt_succ hi', hget, hz, hm, ?_⟩
      intro k hk hki
      match k with
      | 0 =>
        rw [Bool.and_eq_true] at hc
        exact hc
      | k' + 1 =>
        exact hearlier k' (Nat.lt_of_succ_lt_succ hk) (Nat.lt_of_succ_lt_succ hki)

/-- When some child is a zombie matching the filter, the `find` of
`sys_waitpid` succeeds. -/
theorem findZombieIdx_isSome (pid : Int) (l : List Child)
    (h : ∃ c ∈ l, c.zombie = true ∧ pidMatch pid c = true) :
    ∃ i c, findZombieIdx pid l = some (i, c) := by
  cases hfz : findZombieIdx pid l with
  | some p => exact ⟨p.1, p.2, by simp [hfz]⟩
  | none =>
    exfalso
    obtain ⟨c, hc, hzc⟩ := h
    induction l with
    | nil => exact absurd hc (List.not_mem_nil c)
    | cons c0 rest ih =>
      simp only [findZombieIdx] at hfz
      by_cases hc0 : (c0.zombie && pidMatch pid c0) = true
      · rw [if_pos hc0] at hfz; exact absurd hfz (by simp)
      · rw [if_neg hc0] at hfz
        rcases List.mem_cons.mp hc with rfl | hc'
        · exact hc0 (Bool.and_eq_true .. |>.mpr hzc)
        · exact ih (Option.map_eq_none'.mp hfz) hc'

/-- C4: for every filter and children list (child pids in the `isize`
range), `sys_waitpid` returns `-1` when no child matches the filter
(`pid == -1` matching any child); returns `-2` when a match exists but no
matching child is a zombie; and otherwise selects the first zombie match:
that child is removed from the children list, its recorded exit code is
written to the caller's output location, its identity is returned — and the
assertion that its strong reference count is exactly 1 guards the removal
(a count other than 1 panics instead, modelled as `none`). -/
theorem sys_waitpid_spec (pid : Int) (children : List Child)
    (hp : ∀ c ∈ children, c.pid < 2 ^ 63) :
    ((∀ c ∈ children, pidMatch pid c = false) →
      sys_waitpid pid children = some (-1, children, none)) ∧
    (((∃ c ∈ children, pidMatch pid c = true) ∧
        (∀ c ∈ children, ¬(c.zombie = true ∧ pidMatch pid c = true))) →
      sys_waitpid pid children = some (-2, children, none)) ∧
    ((∃ c ∈ children, c.zombie = true ∧ pidMatch pid c = true) →
      ∃ i c, ∃ hi : i < children.length,
        children.get ⟨i, hi⟩ = c ∧ c.zombie = true ∧ pidMatch pid c = true ∧
        (∀ k, ∀ hk : k < children.length, k < i →
          ¬((children.get ⟨k, hk⟩).zombie = true ∧
            pidMatch pid (children.get ⟨k, hk⟩) = true)) ∧
        (c.strong_count = 1 →
          sys_waitpid pid children
            = some (Int.ofNat c.pid, children.eraseIdx i, some c.exit_code)) ∧
        (c.strong_count ≠ 1 → sys_waitpid pid children = none)) := by
  refine ⟨?_, ?_, ?_⟩
  · intro hall
    have hany : children.any (pidMatch pid) = false := by
      rw [List.any_eq_false]
      intro c hc
      rw [hall c hc]
      simp
    simp [sys_waitpid, hany]
  · rintro ⟨⟨c, hc, hm⟩, hnz⟩
    have hany : children.any (pidMatch pid) = true :=
      List.any_eq_true.mpr ⟨c, hc, hm⟩
    have hfz : findZombieIdx pid children = none := findZombieIdx_eq_none pid children hnz
    simp [sys_waitpid, hany, hfz]
  · rintro ⟨c, hc, hzc⟩
    have hany : children.any (pidMatch pid) = true :=
      List.any_eq_true.mpr ⟨c, hc, hzc.2⟩
    obtain ⟨i, c0, hfz⟩ := findZombieIdx_isSome pid children ⟨c, hc, hzc⟩
    obtain ⟨hi, hget, hz0, hm0, hearlier⟩ := findZombieIdx_some pid children i c0 hfz
    have hmem : c0 ∈ children := hget ▸ children.get_mem i hi
    have hcast : isizeOfNat c0.pid = Int.ofNat c0.pid := isizeOfNat_eq c0.pid (hp c0 hmem)
    refine ⟨i, c0, hi, hget, hz0, hm0, hearlier, ?_, ?_⟩
    · intro h1
      simp [sys_waitpid, hany, hfz, h1, hcast]
    · intro hne
      simp [sys_waitpid, hany, hfz, hne]

/-- C4 (witness): with children of pids 5 (zombie) and 6 (running), the
filter 7 matches neither, so `wait` reports "no such child" (`-1`) and the
children list is untouched. -/
theorem sys_waitpid_spec_witness :
    sys_waitpid 7 [chZombie, chLive] = some (-1, [chZombie, chLive], none) :=
  (sys_waitpid_spec 7 [chZombie, chLive] (by decide)).1 (by decide)

/-- C5: for every start address, length and permission-bit argument, both
region-allocate implementations return `-1` (a negative result) and leave
the calling task's address space completely unmodified whenever the start
is not page-aligned, the permission bits encode any bit outside
{Read, Write, Execute} (a bit outside `0x7`), or the resulting permission
set is empty (`port & 0x7 == 0`) — in particular an unaligned start is
rejected regardless of the permission bits supplied. -/
theorem user_allocate_reject (ms : MemorySet) (start len port : Nat)
    (h : start % PAGE_SIZE ≠ 0 ∨ port &&& usizeNot7 ≠ 0 ∨ port &&& 0x7 = 0) :
    (user_allocate_new_space ms start len port).1 = -1 ∧
    (user_allocate_new_space ms start len port).2 = ms ∧
    (allocate_new_space_modRs ms start len port).1 = -1 ∧
    (allocate_new_space_modRs ms start len port).2 = ms := by
  unfold user_allocate_new_space allocate_new_space_modRs
  by_cases h1 : port &&& usizeNot7 ≠ 0
  · rw [if_pos h1, if_pos h1]
    exact ⟨rfl, rfl, rfl, rfl⟩
  · rw [if_neg h1, if_neg h1]
    by_cases h2 : port &&& 0x7 = 0
    · rw [if_pos h2, if_pos h2]
      exact ⟨rfl, rfl, rfl, rfl⟩
    · rw [if_neg h2, if_neg h2]
      have h3 : ¬ start % PAGE_SIZE = 0 := by
        rcases h with h | h | h
        · exact h
        · exact absurd h h1
        · exact absurd h h2
      rw [if_pos h3, if_pos h3]
      exact ⟨rfl, rfl, rfl, rfl⟩

/-- C5 (witness): the spec's own example — `allocate(0x1001, 0x1000, Read)`
is rejected by both implementations with `-1` and the (empty) address space
is unchanged. -/
theorem user_allocate_reject_witness :
    (user_allocate_new_space ⟨[]⟩ 0x1001 0x1000 1).1 = -1 ∧
    (user_allocate_new_space ⟨[]⟩ 0x1001 0x1000 1).2 = ⟨[]⟩ ∧
    (allocate_new_space_modRs ⟨[]⟩ 0x1001 0x1000 1).1 = -1 ∧
    (allocate_new_space_modRs ⟨[]⟩ 0x1001 0x1000 1).2 = ⟨[]⟩ :=
  user_allocate_reject ⟨[]⟩ 0x1001 0x1000 1 (Or.inl (by decide))

/-- C6 (code bug, evaluated at the failing input): requesting a Write-only
mapping (`port = 2`) of one aligned page, the legacy
`TaskManager::allocate_new_space` of `task/mod.rs` reports success yet
installs the empty permission set — its tests `port & 2 == 1` and
`port & 4 == 1` can never hold and it never adds the user-mode bit — while
`user_allocate_new_space` of `processor.rs` installs exactly
{Write, User} as the claim states. -/
theorem allocate_perm_code_bug :
    (allocate_new_space_modRs ⟨[]⟩ 4096 4096 2).1 = 0 ∧
    (allocate_new_space_modRs ⟨[]⟩ 4096 4096 2).2.regions.map Region.perm
      = [⟨false, false, false, false⟩] ∧
    (user_allocate_new_space ⟨[]⟩ 4096 4096 2).2.regions.map Region.perm
      = [⟨false, true, false, true⟩] := by
  refine ⟨?_, ?_, ?_⟩ <;> decide

/-- C7 (counterexample): the claim "any subsequent recording attempt is a
no-op" is false on the `processor.rs` code: the field uses 0 as its "not
yet recorded" sentinel, so a task first dispatched when the time source
reads 0 stores 0, and a second recording attempt at time 7 overwrites the
recorded timestamp with 7. -/
theorem record_first_switch_cex :
    record_first_switch 0 0 = 0 ∧
    record_first_switch 7 (record_first_switch 0 0) = 7 := by
  exact ⟨rfl, rfl⟩

/-- C7 (amended): the first dispatch records the current timestamp in both
implementations; a subsequent recording attempt is a no-op in the
`processor.rs` version provided the recorded timestamp is nonzero (its
`time == 0` sentinel re-records a task first dispatched at time exactly 0),
and unconditionally in the Option-based `task/mod.rs` version. -/
theorem record_first_switch_spec :
    (∀ now : Nat, record_first_switch now 0 = now) ∧
    (∀ now time : Nat, time ≠ 0 → record_first_switch now time = time) ∧
    (∀ now : Nat, record_first_switch_mod now none = some now) ∧
    (∀ now' now : Nat,
      record_first_switch_mod now' (record_first_switch_mod now none)
        = record_first_switch_mod now none) :=
  ⟨fun _ => rfl, fun _ _ h => if_neg h, fun _ => rfl, fun _ _ => rfl⟩

/-- C7 (witness): a recorded timestamp of 5 survives a recording attempt at
time 9. -/
theorem record_first_switch_spec_witness :
    record_first_switch 9 5 = 5 :=
  record_first_switch_spec.2.1 9 5 (by decide)

/-- C8: when `fetch` reports no ready task, any number of iterations of the
`run_tasks` loop leaves it still running with the queue unchanged — the
empty-queue branch only reports the condition (`warn!`) and retries the
fetch; no iteration count reaches a terminated or fatal state. -/
theorem run_tasks_empty_retries (n : Nat) (q : List TCB)
    (h : TaskManager.fetch q = none) :
    run_tasks_iter n q = LoopStatus.running q ∧
    run_tasks_iter n q ≠ LoopStatus.fatal := by
  induction n with
  | zero => exact ⟨rfl, fun h' => LoopStatus.noConfusion h'⟩
  | succ n ih =>
    have hstep : run_tasks_iter (n + 1) q = run_tasks_iter n q := by
      simp [run_tasks_iter, h]
    rw [hstep]
    exact ih

/-- C8 (witness): three iterations on the empty ready queue are still
running and not fatal. -/
theorem run_tasks_empty_retries_witness :
    run_tasks_iter 3 ([] : List TCB) = LoopStatus.running [] ∧
    run_tasks_iter 3 ([] : List TCB) ≠ LoopStatus.fatal :=
  run_tasks_empty_retries 3 [] (by decide)

/-- C9: for every kernel state whose freshly allocated pid is in the
`isize` range (so the `new_pid as isize` cast of the return value is the
identity), `sys_fork` returns the new child's identity to the parent's call
site, and the child is appended to the ready queue with its saved
return-value register already zeroed, so on its first dispatch the child
sees the call return 0. -/
theorem sys_fork_spec (s : KState) (h : s.next_pid < 2 ^ 63) :
    ∃ c : TCB, (sys_fork s).2.queue = s.queue ++ [c] ∧ c.a0 = 0 ∧
      c.pid = s.next_pid ∧ (sys_fork s).1 = Int.ofNat c.pid := by
  refine ⟨TCB.mk s.next_pid (wrap64 (s.cur.stride + s.cur.pass))
    s.cur.pass s.cur.priority 0, ?_, rfl, rfl, ?_⟩
  · rfl
  · exact isizeOfNat_eq s.next_pid h

/-- C9 (witness): forking from a state with next pid 9 enqueues a child
with pid 9 and zeroed return-value register and returns 9 to the parent. -/
theorem sys_fork_spec_witness :
    ∃ c : TCB, (sys_fork ⟨⟨1, 10, 3, 16, 0⟩, [], 9⟩).2.queue = [] ++ [c] ∧
      c.a0 = 0 ∧ c.pid = 9 ∧
      (sys_fork ⟨⟨1, 10, 3, 16, 0⟩, [], 9⟩).1 = Int.ofNat c.pid :=
  sys_fork_spec ⟨⟨1, 10, 3, 16, 0⟩, [], 9⟩ (by decide)
